import Mathlib

/-! # Password generator (script.js): embedding and verified properties

The DOM inputs read by the script (the length slider and the five checkboxes)
are gathered in `Config`.  JavaScript strings are lists of code points
(`List Char`); `jsLength` is the `.length` of such a string (UTF-16 code
units).  An array element or an indexed character that is `undefined` is
`none`, and so is the number `NaN`.  The values delivered by
`crypto.getRandomValues` form an infinite stream that is threaded through
every function that draws from it.

`Math.log2` and the multiplication in `estimateEntropyBits` are taken over the
real numbers (floating-point rounding is not modelled); the non-finite result
`-Infinity` of `Math.log2(0)` is `none`.
-/

namespace PasswordGenerator

/-! ## Data model -/

/-- State of the DOM inputs: `lengthInput.value` as a number and the `checked`
flag of each checkbox. -/
structure Config where
  length : Int
  includeLower : Bool
  includeUpper : Bool
  includeNumbers : Bool
  includeSymbols : Bool
  excludeAmbiguous : Bool
  deriving DecidableEq, Repr

/-- Successive results of `crypto.getRandomValues` on a one-element
`Uint32Array`: entry `k` is the `k`-th draw still to come. -/
abbrev RandomSource := Nat → Nat

/-- The source after one draw has been consumed. -/
def RandomSource.next (r : RandomSource) : RandomSource := fun k => r (k + 1)

/-- The `.length` of a JavaScript string: the number of UTF-16 code units. -/
def jsLength (str : List Char) : Nat :=
  (str.map fun c => if c.toNat < 65536 then 1 else 2).sum

/-- The indexing `str[k]`: `undefined` when `k` is `NaN` or is not an index of `str`.
(Indexing is by code point, which is indexing by code unit on the strings of
this script, all of them ASCII.) -/
def charAt (str : List Char) (k : Option Nat) : Option Char :=
  k.bind fun i => str[i]?

/-- The call `arr.join('')` for an array of one-character strings and `undefined`s:
`undefined` contributes the empty string. -/
def joinArr (arr : List (Option Char)) : List Char :=
  arr.filterMap id

/-- The statement `result += v`: the value `undefined` is appended as the text "undefined". -/
def appendValue (result : List Char) (v : Option Char) : List Char :=
  match v with
  | some c => result ++ [c]
  | none => result ++ "undefined".toList

/-! ## Character pools (script.js 14-22) -/

def lowercase : List Char := "abcdefghijklmnopqrstuvwxyz".toList

def uppercase : List Char := "ABCDEFGHIJKLMNOPQRSTUVWXYZ".toList

def numbers : List Char := "0123456789".toList

def symbols : List Char := "!@#$%^&*()_+-=[]\x7b\x7d|;:,.<>?".toList

/-- Members of `ambiguousSet`; `ambiguousSet.has(ch)` is `ambiguousSet.contains ch`. -/
def ambiguousSet : List Char := ['O', '0', 'o', 'I', 'l', '1', 'S', '5', 'B', '8']

/-! ## buildPool (script.js 37-51) -/

/-- Lines 38-42: the concatenation of the checked classes. -/
def concatPool (cfg : Config) : List Char :=
  let pool := []
  let pool := if cfg.includeLower then pool ++ lowercase else pool
  let pool := if cfg.includeUpper then pool ++ uppercase else pool
  let pool := if cfg.includeNumbers then pool ++ numbers else pool
  let pool := if cfg.includeSymbols then pool ++ symbols else pool
  pool

/-- Lines 38-46: the pool as it stands just before the fallback of line 49. -/
def poolBeforeFallback (cfg : Config) : List Char :=
  let pool := concatPool cfg
  if cfg.excludeAmbiguous && jsLength pool != 0 then
    pool.filter fun ch => !ambiguousSet.contains ch
  else pool

def buildPool (cfg : Config) : List Char :=
  let pool := poolBeforeFallback cfg
  if pool.isEmpty then lowercase else pool

/-! ## getRandomInt (script.js 53-58) -/

/-- One draw: `array[0] % maxExclusive`, where `array[0]` is a 32-bit unsigned
word.  The remainder by zero is `NaN` (`none`). -/
def getRandomInt (maxExclusive : Nat) (r : RandomSource) : Option Nat × RandomSource :=
  let word := r 0 % 2 ^ 32
  (if maxExclusive = 0 then none else some (word % maxExclusive), r.next)

/-! ## shuffleString (script.js 60-67) -/

/-- Line 64, `[arr[i], arr[j]] = [arr[j], arr[i]]`: both reads happen first,
then `arr[i]` and `arr[j]` are written in this order.  With `j = NaN` the read
gives `undefined` and the second write makes no array element. -/
def swapIndices (arr : List (Option Char)) (i : Nat) (j : Option Nat) : List (Option Char) :=
  match j with
  | some j => (arr.set i (arr.getD j none)).set j (arr.getD i none)
  | none => arr.set i none

/-- Lines 62-65: the loop body for `i`, `i - 1`, ..., `1`. -/
def shuffleLoop : Nat → List (Option Char) × RandomSource → List (Option Char) × RandomSource
  | 0, st => st
  | i + 1, st =>
    let d := getRandomInt (i + 1 + 1) st.2
    shuffleLoop i (swapIndices st.1 (i + 1) d.1, d.2)

def shuffleString (str : List Char) (r : RandomSource) : List Char × RandomSource :=
  let arr := str.map some
  let out := shuffleLoop (arr.length - 1) (arr, r)
  (joinArr out.1, out.2)

/-! ## generatePassword (script.js 69-91) -/

/-- The statement `required.push(alphabet[getRandomInt(alphabet.length)])`. -/
def pushSample (alphabet : List Char) (st : List (Option Char) × RandomSource) :
    List (Option Char) × RandomSource :=
  let d := getRandomInt (jsLength alphabet) st.2
  (st.1 ++ [charAt alphabet d.1], d.2)

/-- Line 79: the symbol alphabet the required symbol is drawn from. -/
def symSet (cfg : Config) : List Char :=
  if cfg.excludeAmbiguous then symbols.filter fun c => !ambiguousSet.contains c else symbols

/-- Lines 74-81: the array `required` and the source left after its draws. -/
def requiredSamples (cfg : Config) (r : RandomSource) : List (Option Char) × RandomSource :=
  let st : List (Option Char) × RandomSource := ([], r)
  let st := if cfg.includeLower then pushSample lowercase st else st
  let st := if cfg.includeUpper then pushSample uppercase st else st
  let st := if cfg.includeNumbers then pushSample numbers st else st
  let st :=
    if cfg.includeSymbols then
      if jsLength (symSet cfg) != 0 then pushSample (symSet cfg) st else st
    else st
  st

/-- Lines 84-86: `n` rounds of `result += pool[getRandomInt(pool.length)]`.
The loop counter runs from the initial `result.length` up to `len` and the body
changes neither, so the number of rounds is fixed on entry. -/
def fillLoop (pool : List Char) : Nat → List Char × RandomSource → List Char × RandomSource
  | 0, st => st
  | n + 1, st =>
    let d := getRandomInt (jsLength pool) st.2
    fillLoop pool n (appendValue st.1 (charAt pool d.1), d.2)

/-- The password written to `passwordOutput.value`, with the source left over. -/
def generatePassword (cfg : Config) (r : RandomSource) : List Char × RandomSource :=
  let len := cfg.length
  let pool := buildPool cfg
  let req := requiredSamples cfg r
  let result := joinArr req.1
  let filled := fillLoop pool (len - (jsLength result : Int)).toNat (result, req.2)
  shuffleString filled.1 filled.2

/-! ## estimateEntropyBits and updateStrength (script.js 93-118) -/

/-- Is the code point of `c` between those of `lo` and `hi`? -/
def inRange (lo hi c : Char) : Bool :=
  decide (lo.toNat ≤ c.toNat ∧ c.toNat ≤ hi.toNat)

/-- The test `/[a-z]/.test(password)`. -/
def hasLower (password : List Char) : Bool := password.any fun c => inRange 'a' 'z' c

/-- The test `/[A-Z]/.test(password)`. -/
def hasUpper (password : List Char) : Bool := password.any fun c => inRange 'A' 'Z' c

/-- The test `/[0-9]/.test(password)`. -/
def hasNum (password : List Char) : Bool := password.any fun c => inRange '0' '9' c

/-- The test `/[^A-Za-z0-9]/.test(password)`. -/
def hasSym (password : List Char) : Bool :=
  password.any fun c => !(inRange 'A' 'Z' c || inRange 'a' 'z' c || inRange '0' '9' c)

/-- Lines 95-104: the variable `charsetSize` when line 106 is reached. -/
def charsetSize (password : List Char) : Nat :=
  let charsetSize := 0
  let charsetSize := if hasLower password then charsetSize + 26 else charsetSize
  let charsetSize := if hasUpper password then charsetSize + 26 else charsetSize
  let charsetSize := if hasNum password then charsetSize + 10 else charsetSize
  let charsetSize := if hasSym password then charsetSize + 32 else charsetSize
  charsetSize

/-- The value of `Math.log2` at a natural number: `none` is the non-finite `-Infinity` at 0. -/
noncomputable def log2 (n : Nat) : Option ℝ :=
  if n = 0 then none else some (Real.logb 2 n)

/-- Line 106: `Math.log2(charsetSize) * password.length` for a non-empty
password; `none` is a non-finite product. -/
noncomputable def rawBits (password : List Char) : Option ℝ :=
  (log2 (charsetSize password)).map fun l => l * (jsLength password : ℝ)

noncomputable def estimateEntropyBits (password : List Char) : ℝ :=
  if password.isEmpty then 0
  else
    match rawBits password with
    | some bits => bits
    | none => 0

/-- Lines 112-115: the pair `(level, label)` chosen for a value of `bits`. -/
noncomputable def strengthOfBits (bits : ℝ) : String × String :=
  if 60 ≤ bits ∧ bits < 80 then ("fair", "Fair")
  else if 80 ≤ bits then ("strong", "Strong")
  else ("weak", "Weak")

/-- The pair written to `strengthIndicator.dataset.level` and
`strengthIndicator.textContent`. -/
noncomputable def updateStrength (pw : List Char) : String × String :=
  strengthOfBits (estimateEntropyBits pw)

/-! ## Vocabulary of the properties -/

/-- Every code point of the string is in the Basic Multilingual Plane, so the
string has one UTF-16 code unit per element. -/
def IsBmp (str : List Char) : Prop := ∀ c ∈ str, c.toNat < 65536

instance (str : List Char) : Decidable (IsBmp str) := by
  unfold IsBmp; infer_instance

/-- The number of checked classes. -/
def selectedCount (cfg : Config) : Nat :=
  (if cfg.includeLower then 1 else 0) + (if cfg.includeUpper then 1 else 0)
    + (if cfg.includeNumbers then 1 else 0) + (if cfg.includeSymbols then 1 else 0)

/-- Is at least one class checked? -/
def anySelected (cfg : Config) : Bool :=
  cfg.includeLower || cfg.includeUpper || cfg.includeNumbers || cfg.includeSymbols

/-- The configuration of the example: length 12, lowercase, uppercase and digits
checked, symbols unchecked, ambiguous characters excluded. -/
def exampleConfig : Config := ⟨12, true, true, true, false, true⟩

/-- A stream of random words: 7, 20, 33, ... -/
def exampleSource : RandomSource := fun k => 13 * k + 7

/-- A stream that delivers the word 11 at every draw. -/
def elevenSource : RandomSource := fun _ => 11

/-- A stream that delivers the word 14 at every draw. -/
def fourteenSource : RandomSource := fun _ => 14

/-- No class checked, length 0, ambiguous characters kept. -/
def noClassZero : Config := ⟨0, false, false, false, false, false⟩

/-- No class checked, length 2, ambiguous characters excluded. -/
def noClassExclude : Config := ⟨2, false, false, false, false, true⟩

/-- No class checked, length 3, ambiguous characters kept. -/
def noClassThree : Config := ⟨3, false, false, false, false, false⟩

/-- The charset size in the words of the specification: 26 for a character in
a-z, 26 for one in A-Z, 10 for a digit, 32 for a character that is neither a
letter of A-Z or a-z nor a digit. -/
def specCharsetSize (p : List Char) : Nat :=
  (if ∃ c ∈ p, 'a' ≤ c ∧ c ≤ 'z' then 26 else 0)
    + (if ∃ c ∈ p, 'A' ≤ c ∧ c ≤ 'Z' then 26 else 0)
    + (if ∃ c ∈ p, '0' ≤ c ∧ c ≤ '9' then 10 else 0)
    + (if ∃ c ∈ p, ¬ (('A' ≤ c ∧ c ≤ 'Z') ∨ ('a' ≤ c ∧ c ≤ 'z') ∨ ('0' ≤ c ∧ c ≤ '9'))
        then 32 else 0)

/-- The password of the second scoring example. -/
def troubadour : List Char := "Tr0ub4dour&3".toList

/-- The outcome of a call of `generatePassword`: the script has no `throw`
statement and validates none of its inputs, so every call ends normally with
the password (`Except.error` would be a raised error). -/
def generatePasswordOutcome (cfg : Config) (r : RandomSource) : Except String (List Char) :=
  Except.ok (generatePassword cfg r).1

/-- Lines 88-90: the password and the pair `updateStrength` shows for it. -/
noncomputable def generateAndScore (cfg : Config) (r : RandomSource) :
    List Char × (String × String) :=
  let result := (generatePassword cfg r).1
  (result, updateStrength result)

/-- Lowercase checked, length -1, ambiguous characters kept. -/
def negativeLengthConfig : Config := ⟨-1, true, false, false, false, false⟩

/-- The stream of `exampleSource` with 2^32 added to every word: the same
32-bit words. -/
def shiftedSource : RandomSource := fun k => 13 * k + 7 + 2 ^ 32

/-- The concatenation of the alphabets of the checked classes in the order
lowercase, uppercase, numbers, symbols, in the words of the specification. -/
def specConcat (cfg : Config) : List Char :=
  (if cfg.includeLower then lowercase else []) ++ (if cfg.includeUpper then uppercase else [])
    ++ (if cfg.includeNumbers then numbers else [])
    ++ (if cfg.includeSymbols then symbols else [])

/-- The pool in the words of the specification: the concatenation, with the
characters of `ambiguousSet` removed when ambiguous characters are excluded. -/
def specPool (cfg : Config) : List Char :=
  if cfg.excludeAmbiguous then (specConcat cfg).filter fun c => decide (c ∉ ambiguousSet)
  else specConcat cfg

/-- A character the configuration allows: one of the alphabet of a checked
class, or a lowercase letter when no class is checked. -/
def Allowed (cfg : Config) (c : Char) : Prop :=
  (cfg.includeLower = true ∧ c ∈ lowercase) ∨ (cfg.includeUpper = true ∧ c ∈ uppercase)
    ∨ (cfg.includeNumbers = true ∧ c ∈ numbers) ∨ (cfg.includeSymbols = true ∧ c ∈ symbols)
    ∨ (anySelected cfg = false ∧ c ∈ lowercase)

instance (cfg : Config) (c : Char) : Decidable (Allowed cfg c) := by
  unfold Allowed; infer_instance

/-- The iterations of the loop of lines 62-65 started at `i`: for each one the
value of `i` and the `j` it draws. -/
def shuffleSteps : Nat → RandomSource → List (Nat × Option Nat)
  | 0, _ => []
  | i + 1, r =>
    (i + 1, (getRandomInt (i + 1 + 1) r).1) :: shuffleSteps i (getRandomInt (i + 1 + 1) r).2

/-- The steps of a Fisher-Yates shuffle of `n` elements, in the words of the
specification: step number `k` (from 0) has `i = n - 1 - k`, down to `i = 1`,
and `j` is the `k`-th random word reduced modulo `i + 1`. -/
def fisherYatesSteps (n : Nat) (r : RandomSource) : List (Nat × Nat) :=
  (List.range (n - 1)).map fun k => (n - 1 - k, r k % 2 ^ 32 % (n - 1 - k + 1))

/-- The source after `k` draws. -/
def RandomSource.drop (r : RandomSource) (k : Nat) : RandomSource := fun m => r (m + k)

/-- The number of 32-bit words for which `getRandomInt(n)` returns `v`. -/
def wordsMappedTo (n v : Nat) : Nat :=
  Nat.count (fun w => (getRandomInt n (fun _ => w)).1 = some v) (2 ^ 32)

/-- All four classes checked, length 2 (below the four required samples),
ambiguous characters kept. -/
def fourClassShort : Config := ⟨2, true, true, true, true, false⟩

/-! ## Auxiliary facts -/

theorem jsLength_nil : jsLength [] = 0 := rfl

theorem jsLength_append (s t : List Char) : jsLength (s ++ t) = jsLength s + jsLength t := by
  simp [jsLength]

theorem jsLength_eq_length {str : List Char} (h : IsBmp str) : jsLength str = str.length := by
  induction str with
  | nil => rfl
  | cons c t ih =>
    have hc : c.toNat < 65536 := h c (List.mem_cons_self _ _)
    have ht : IsBmp t := fun x hx => h x (List.mem_cons_of_mem _ hx)
    have e : jsLength (c :: t) = (if c.toNat < 65536 then 1 else 2) + jsLength t := by
      simp [jsLength]
    rw [e, ih ht, if_pos hc, List.length_cons]; omega

theorem jsLength_perm {s t : List Char} (h : s.Perm t) : jsLength s = jsLength t := by
  unfold jsLength
  exact (h.map _).sum_eq

theorem getRandomInt_fst {n : Nat} (hn : 0 < n) (r : RandomSource) :
    (getRandomInt n r).1 = some (r 0 % 2 ^ 32 % n) := by
  simp [getRandomInt, Nat.pos_iff_ne_zero.mp hn]

theorem getRandomInt_snd (n : Nat) (r : RandomSource) : (getRandomInt n r).2 = r.next := rfl

/-- Indexing a non-empty BMP string at `getRandomInt(str.length)` yields one of
its characters. -/
theorem charAt_getRandomInt {str : List Char} (hb : IsBmp str) (hne : str ≠ [])
    (r : RandomSource) :
    ∃ c ∈ str, charAt str (getRandomInt (jsLength str) r).1 = some c := by
  have hlen : 0 < str.length := List.length_pos.mpr hne
  rw [jsLength_eq_length hb, getRandomInt_fst hlen]
  have hk : r 0 % 2 ^ 32 % str.length < str.length := Nat.mod_lt _ hlen
  refine ⟨str[r 0 % 2 ^ 32 % str.length], List.getElem_mem _, ?_⟩
  simp [charAt, List.getElem?_eq_getElem hk]

/-! ### The swap of line 64 is a permutation -/

theorem head_set_perm {α : Type} (d a : α) :
    ∀ (t : List α) (j : Nat), j < t.length → (t.getD j d :: t.set j a).Perm (a :: t)
  | [], _, h => by simp at h
  | b :: u, 0, _ => by
    simpa using List.Perm.swap a b u
  | b :: u, k + 1, h => by
    have hk : k < u.length := by simpa using h
    have ih := head_set_perm d a u k hk
    simp only [List.getD_cons_succ, List.set_cons_succ]
    exact (List.Perm.swap b (u.getD k d) (u.set k a)).trans
      ((ih.cons b).trans (List.Perm.swap a b u))

theorem swap_perm {α : Type} (d : α) :
    ∀ (l : List α) (i j : Nat), i < l.length → j < l.length →
      ((l.set i (l.getD j d)).set j (l.getD i d)).Perm l
  | [], _, _, h, _ => by simp at h
  | a :: t, 0, 0, _, _ => by simp
  | a :: t, 0, j + 1, _, hj => by
    have hj2 : j < t.length := by simpa using hj
    simpa using head_set_perm d a t j hj2
  | a :: t, i + 1, 0, hi, _ => by
    have hi2 : i < t.length := by simpa using hi
    simpa using head_set_perm d a t i hi2
  | a :: t, i + 1, j + 1, hi, hj => by
    have hi2 : i < t.length := by simpa using hi
    have hj2 : j < t.length := by simpa using hj
    simpa using (swap_perm d t i j hi2 hj2).cons a

theorem swapIndices_perm (arr : List (Option Char)) (i j : Nat) (hi : i < arr.length)
    (hj : j ≤ i) : (swapIndices arr i (some j)).Perm arr :=
  swap_perm none arr i j hi (Nat.lt_of_le_of_lt hj hi)

theorem shuffleLoop_perm :
    ∀ (i : Nat) (arr : List (Option Char)) (r : RandomSource), i < arr.length ∨ i = 0 →
      (shuffleLoop i (arr, r)).1.Perm arr
  | 0, arr, r, _ => List.Perm.refl arr
  | i + 1, arr, r, h => by
    have hi : i + 1 < arr.length := by
      rcases h with h | h
      · exact h
      · omega
    have hj : r 0 % 2 ^ 32 % (i + 1 + 1) ≤ i + 1 :=
      Nat.lt_succ_iff.mp (Nat.mod_lt _ (Nat.succ_pos _))
    have hp := swapIndices_perm arr (i + 1) _ hi hj
    have hlen : i < (swapIndices arr (i + 1) (some (r 0 % 2 ^ 32 % (i + 1 + 1)))).length := by
      rw [hp.length_eq]; omega
    have ih := shuffleLoop_perm i _ r.next (Or.inl hlen)
    simp only [shuffleLoop, getRandomInt_fst (Nat.succ_pos (i + 1)), getRandomInt_snd]
    exact ih.trans hp

theorem joinArr_map_some (l : List Char) : joinArr (l.map some) = l := by
  simp [joinArr, List.filterMap_map]

theorem shuffleString_perm (str : List Char) (r : RandomSource) :
    (shuffleString str r).1.Perm str := by
  have h : (str.map some).length - 1 < (str.map some).length ∨ (str.map some).length - 1 = 0 := by
    omega
  have hp := shuffleLoop_perm ((str.map some).length - 1) (str.map some) r h
  have hq := hp.filterMap id
  have e : List.filterMap id (str.map some) = str := joinArr_map_some str
  rw [e] at hq
  exact hq

/-! ### Alphabets and pools -/

theorem lowercase_isBmp : IsBmp lowercase := by decide

theorem uppercase_isBmp : IsBmp uppercase := by decide

theorem numbers_isBmp : IsBmp numbers := by decide

/-- Neither `symSet` nor `buildPool` reads the length. -/
theorem symSet_congr (cfg : Config) :
    symSet cfg = symSet ⟨0, false, false, false, false, cfg.excludeAmbiguous⟩ := rfl

theorem buildPool_congr (cfg : Config) :
    buildPool cfg = buildPool ⟨0, cfg.includeLower, cfg.includeUpper, cfg.includeNumbers,
      cfg.includeSymbols, cfg.excludeAmbiguous⟩ := rfl

theorem symSet_isBmp (cfg : Config) : IsBmp (symSet cfg) := by
  have h : ∀ e : Bool, IsBmp (symSet ⟨0, false, false, false, false, e⟩) := by decide
  rw [symSet_congr]; exact h _

theorem symSet_ne_nil (cfg : Config) : symSet cfg ≠ [] := by
  have h : ∀ e : Bool, symSet ⟨0, false, false, false, false, e⟩ ≠ [] := by decide
  rw [symSet_congr]; exact h _

theorem symSet_subset (cfg : Config) : ∀ c ∈ symSet cfg, c ∈ symbols := by
  have h : ∀ e : Bool, ∀ c ∈ symSet ⟨0, false, false, false, false, e⟩, c ∈ symbols := by
    decide
  rw [symSet_congr]; exact h _

theorem symSet_guard (cfg : Config) : (jsLength (symSet cfg) != 0) = true := by
  have h : ∀ e : Bool, (jsLength (symSet ⟨0, false, false, false, false, e⟩) != 0) = true := by
    decide
  rw [symSet_congr]; exact h _

theorem buildPool_isBmp (cfg : Config) : IsBmp (buildPool cfg) := by
  have h : ∀ a b c d e : Bool, IsBmp (buildPool ⟨0, a, b, c, d, e⟩) := by decide
  rw [buildPool_congr]; exact h _ _ _ _ _

theorem buildPool_ne_nil (cfg : Config) : buildPool cfg ≠ [] := by
  have h : ∀ a b c d e : Bool, buildPool ⟨0, a, b, c, d, e⟩ ≠ [] := by decide
  rw [buildPool_congr]; exact h _ _ _ _ _

/-! ### The required samples -/

/-- One guarded push: the array grows by one character of the alphabet when the
class is checked and is unchanged otherwise. -/
theorem pushSample_step {alphabet : List Char} (hb : IsBmp alphabet) (hne : alphabet ≠ [])
    (b : Bool) (l : List Char) (r : RandomSource) :
    ∃ l2 r2, (if b = true then pushSample alphabet (l.map some, r) else (l.map some, r))
        = ((l ++ l2).map some, r2)
      ∧ l2.length = (if b = true then 1 else 0) ∧ ∀ c ∈ l2, c ∈ alphabet := by
  cases b with
  | false => exact ⟨[], r, by simp, by simp, by simp⟩
  | true =>
    obtain ⟨c, hc, hpick⟩ := charAt_getRandomInt hb hne r
    refine ⟨[c], r.next, ?_, by simp, by simpa using hc⟩
    simp [pushSample, hpick, getRandomInt_snd]

/-- The array `required` holds, in class order, one character of each checked
class and nothing else; none of its elements is `undefined`. -/
theorem requiredSamples_spec (cfg : Config) (r : RandomSource) :
    ∃ (l1 l2 l3 l4 : List Char) (r2 : RandomSource), requiredSamples cfg r = ((l1 ++ l2 ++ l3 ++ l4).map some, r2)
      ∧ l1.length = (if cfg.includeLower = true then 1 else 0) ∧ (∀ c ∈ l1, c ∈ lowercase)
      ∧ l2.length = (if cfg.includeUpper = true then 1 else 0) ∧ (∀ c ∈ l2, c ∈ uppercase)
      ∧ l3.length = (if cfg.includeNumbers = true then 1 else 0) ∧ (∀ c ∈ l3, c ∈ numbers)
      ∧ l4.length = (if cfg.includeSymbols = true then 1 else 0) ∧ (∀ c ∈ l4, c ∈ symSet cfg) := by
  obtain ⟨l1, r1, e1, n1, m1⟩ :=
    pushSample_step lowercase_isBmp (by decide) cfg.includeLower [] r
  obtain ⟨l2, r2, e2, n2, m2⟩ :=
    pushSample_step uppercase_isBmp (by decide) cfg.includeUpper ([] ++ l1) r1
  obtain ⟨l3, r3, e3, n3, m3⟩ :=
    pushSample_step numbers_isBmp (by decide) cfg.includeNumbers ([] ++ l1 ++ l2) r2
  obtain ⟨l4, r4, e4, n4, m4⟩ :=
    pushSample_step (symSet_isBmp cfg) (symSet_ne_nil cfg) cfg.includeSymbols
      ([] ++ l1 ++ l2 ++ l3) r3
  refine ⟨l1, l2, l3, l4, r4, ?_, n1, m1, n2, m2, n3, m3, n4, m4⟩
  have e1a : (if cfg.includeLower = true then
      pushSample lowercase (([] : List (Option Char)), r) else ([], r))
      = (([] ++ l1).map some, r1) := by simpa using e1
  simp only [requiredSamples, symSet_guard, if_true]
  rw [e1a, e2, e3, e4]
  simp

/-! ### The fill loop -/

/-- The fill loop appends exactly `n` characters, each taken from the pool. -/
theorem fillLoop_spec {pool : List Char} (hb : IsBmp pool) (hne : pool ≠ []) :
    ∀ (n : Nat) (res : List Char) (r : RandomSource),
      ∃ extra r2, fillLoop pool n (res, r) = (res ++ extra, r2)
        ∧ extra.length = n ∧ ∀ c ∈ extra, c ∈ pool
  | 0, res, r => ⟨[], r, by simp [fillLoop], rfl, by simp⟩
  | n + 1, res, r => by
    obtain ⟨c, hc, hpick⟩ := charAt_getRandomInt hb hne r
    obtain ⟨extra, r2, e, hn, hm⟩ := fillLoop_spec hb hne n (res ++ [c]) r.next
    refine ⟨c :: extra, r2, ?_, by simp [hn], ?_⟩
    · simp only [fillLoop, hpick, appendValue, getRandomInt_snd, e]
      simp
    · intro x hx
      rcases List.mem_cons.mp hx with h | h
      · exact h ▸ hc
      · exact hm x h

/-- The password is a rearrangement of the required samples followed by
`max(0, length - #required)` characters of the pool. -/
theorem generatePassword_spec (cfg : Config) (r : RandomSource) :
    ∃ l1 l2 l3 l4 extra : List Char,
      (generatePassword cfg r).1.Perm (l1 ++ l2 ++ l3 ++ l4 ++ extra)
      ∧ l1.length = (if cfg.includeLower = true then 1 else 0) ∧ (∀ c ∈ l1, c ∈ lowercase)
      ∧ l2.length = (if cfg.includeUpper = true then 1 else 0) ∧ (∀ c ∈ l2, c ∈ uppercase)
      ∧ l3.length = (if cfg.includeNumbers = true then 1 else 0) ∧ (∀ c ∈ l3, c ∈ numbers)
      ∧ l4.length = (if cfg.includeSymbols = true then 1 else 0) ∧ (∀ c ∈ l4, c ∈ symSet cfg)
      ∧ extra.length = (cfg.length - (selectedCount cfg : Int)).toNat
      ∧ (∀ c ∈ extra, c ∈ buildPool cfg) := by
  obtain ⟨l1, l2, l3, l4, r2, e, n1, m1, n2, m2, n3, m3, n4, m4⟩ := requiredSamples_spec cfg r
  have hbmp : IsBmp (l1 ++ l2 ++ l3 ++ l4) := by
    intro c hc
    simp only [List.mem_append] at hc
    rcases hc with ((h | h) | h) | h
    · exact lowercase_isBmp c (m1 c h)
    · exact uppercase_isBmp c (m2 c h)
    · exact numbers_isBmp c (m3 c h)
    · exact symSet_isBmp cfg c (m4 c h)
  have hlen : jsLength (l1 ++ l2 ++ l3 ++ l4) = selectedCount cfg := by
    rw [jsLength_eq_length hbmp]
    simp only [List.length_append, n1, n2, n3, n4, selectedCount]
  obtain ⟨extra, r3, ef, hn, hm⟩ :=
    fillLoop_spec (buildPool_isBmp cfg) (buildPool_ne_nil cfg)
      (cfg.length - (selectedCount cfg : Int)).toNat (l1 ++ l2 ++ l3 ++ l4) r2
  refine ⟨l1, l2, l3, l4, extra, ?_, n1, m1, n2, m2, n3, m3, n4, m4, hn, hm⟩
  simp only [generatePassword, e, joinArr_map_some, hlen, ef]
  exact shuffleString_perm _ _

theorem generatePassword_isBmp (cfg : Config) (r : RandomSource) :
    IsBmp (generatePassword cfg r).1 := by
  obtain ⟨l1, l2, l3, l4, extra, hp, -, m1, -, m2, -, m3, -, m4, -, hm⟩ :=
    generatePassword_spec cfg r
  intro c hc
  have hc2 := hp.mem_iff.mp hc
  simp only [List.mem_append] at hc2
  rcases hc2 with (((h | h) | h) | h) | h
  · exact lowercase_isBmp c (m1 c h)
  · exact uppercase_isBmp c (m2 c h)
  · exact numbers_isBmp c (m3 c h)
  · exact symSet_isBmp cfg c (m4 c h)
  · exact buildPool_isBmp cfg c (hm c h)

theorem generatePassword_length (cfg : Config) (r : RandomSource) :
    ((generatePassword cfg r).1.length : Int) = max (selectedCount cfg : Int) cfg.length := by
  obtain ⟨l1, l2, l3, l4, extra, hp, n1, -, n2, -, n3, -, n4, -, hn, -⟩ :=
    generatePassword_spec cfg r
  rw [hp.length_eq]
  simp only [List.length_append, n1, n2, n3, n4, hn]
  have e : ((if cfg.includeLower = true then 1 else 0) + (if cfg.includeUpper = true then 1 else 0)
      + (if cfg.includeNumbers = true then 1 else 0) + (if cfg.includeSymbols = true then 1 else 0))
      = selectedCount cfg := rfl
  rw [e]
  omega

theorem generatePassword_jsLength (cfg : Config) (r : RandomSource) :
    (jsLength (generatePassword cfg r).1 : Int) = max (selectedCount cfg : Int) cfg.length := by
  rw [jsLength_eq_length (generatePassword_isBmp cfg r)]
  exact generatePassword_length cfg r

theorem requiredSamples_length (cfg : Config) (r : RandomSource) :
    (requiredSamples cfg r).1.length = selectedCount cfg := by
  obtain ⟨l1, l2, l3, l4, r2, e, n1, -, n2, -, n3, -, n4, -⟩ := requiredSamples_spec cfg r
  rw [e]
  simp only [List.length_map, List.length_append, n1, n2, n3, n4, selectedCount]

/-- Each checked class has one of its characters in the password. -/
theorem generatePassword_covers (cfg : Config) (r : RandomSource) :
    (cfg.includeLower = true → ∃ c ∈ (generatePassword cfg r).1, c ∈ lowercase)
    ∧ (cfg.includeUpper = true → ∃ c ∈ (generatePassword cfg r).1, c ∈ uppercase)
    ∧ (cfg.includeNumbers = true → ∃ c ∈ (generatePassword cfg r).1, c ∈ numbers)
    ∧ (cfg.includeSymbols = true → ∃ c ∈ (generatePassword cfg r).1, c ∈ symbols) := by
  obtain ⟨l1, l2, l3, l4, extra, hp, n1, m1, n2, m2, n3, m3, n4, m4, -, -⟩ :=
    generatePassword_spec cfg r
  refine ⟨fun h => ?_, fun h => ?_, fun h => ?_, fun h => ?_⟩
  · rw [if_pos h] at n1
    obtain ⟨c, hc⟩ := List.exists_mem_of_length_pos (by omega : 0 < l1.length)
    exact ⟨c, hp.mem_iff.mpr (by simp [hc]), m1 c hc⟩
  · rw [if_pos h] at n2
    obtain ⟨c, hc⟩ := List.exists_mem_of_length_pos (by omega : 0 < l2.length)
    exact ⟨c, hp.mem_iff.mpr (by simp [hc]), m2 c hc⟩
  · rw [if_pos h] at n3
    obtain ⟨c, hc⟩ := List.exists_mem_of_length_pos (by omega : 0 < l3.length)
    exact ⟨c, hp.mem_iff.mpr (by simp [hc]), m3 c hc⟩
  · rw [if_pos h] at n4
    obtain ⟨c, hc⟩ := List.exists_mem_of_length_pos (by omega : 0 < l4.length)
    exact ⟨c, hp.mem_iff.mpr (by simp [hc]), symSet_subset cfg c (m4 c hc)⟩

/-! ### Generation without a fill round, and the characters allowed -/

theorem requiredSamples_jsLength (cfg : Config) (r : RandomSource) :
    jsLength (joinArr (requiredSamples cfg r).1) = selectedCount cfg := by
  obtain ⟨l1, l2, l3, l4, r2, e, n1, m1, n2, m2, n3, m3, n4, m4⟩ := requiredSamples_spec cfg r
  have hbmp : IsBmp (l1 ++ l2 ++ l3 ++ l4) := by
    intro c hc
    simp only [List.mem_append] at hc
    rcases hc with ((h | h) | h) | h
    · exact lowercase_isBmp c (m1 c h)
    · exact uppercase_isBmp c (m2 c h)
    · exact numbers_isBmp c (m3 c h)
    · exact symSet_isBmp cfg c (m4 c h)
  rw [e, joinArr_map_some, jsLength_eq_length hbmp]
  simp only [List.length_append, n1, n2, n3, n4, selectedCount]

/-- With a length not above the number of checked classes the fill loop makes
no round: the password is the shuffle of the joined required samples. -/
theorem generatePassword_no_fill (cfg : Config) (r : RandomSource)
    (h : cfg.length ≤ (selectedCount cfg : Int)) :
    generatePassword cfg r
      = shuffleString (joinArr (requiredSamples cfg r).1) (requiredSamples cfg r).2 := by
  have h0 : (cfg.length - ((selectedCount cfg : Nat) : Int)).toNat = 0 := by omega
  simp only [generatePassword, requiredSamples_jsLength, h0, fillLoop]

theorem allowed_congr (cfg : Config) (c : Char) :
    Allowed cfg c ↔ Allowed ⟨0, cfg.includeLower, cfg.includeUpper, cfg.includeNumbers,
      cfg.includeSymbols, cfg.excludeAmbiguous⟩ c := Iff.rfl

theorem buildPool_allowed (cfg : Config) : ∀ c ∈ buildPool cfg, Allowed cfg c := by
  have h : ∀ a b c d e : Bool, ∀ x ∈ buildPool ⟨0, a, b, c, d, e⟩,
      Allowed ⟨0, a, b, c, d, e⟩ x := by decide
  intro c hc
  rw [buildPool_congr] at hc
  exact (allowed_congr cfg c).mpr (h _ _ _ _ _ c hc)

theorem lowercase_disjoint :
    ∀ c ∈ lowercase, c ∉ uppercase ∧ c ∉ numbers ∧ c ∉ symbols := by decide

theorem uppercase_disjoint :
    ∀ c ∈ uppercase, c ∉ lowercase ∧ c ∉ numbers ∧ c ∉ symbols := by decide

theorem numbers_disjoint :
    ∀ c ∈ numbers, c ∉ lowercase ∧ c ∉ uppercase ∧ c ∉ symbols := by decide

theorem symbols_disjoint :
    ∀ c ∈ symbols, c ∉ lowercase ∧ c ∉ uppercase ∧ c ∉ numbers := by decide

theorem generatePassword_allowed (cfg : Config) (r : RandomSource) :
    ∀ c ∈ (generatePassword cfg r).1, Allowed cfg c := by
  obtain ⟨l1, l2, l3, l4, extra, hp, n1, m1, n2, m2, n3, m3, n4, m4, -, hm⟩ :=
    generatePassword_spec cfg r
  intro c hc
  have hc2 := hp.mem_iff.mp hc
  simp only [List.mem_append] at hc2
  have nonempty_flag : ∀ (b : Bool) (l : List Char), l.length = (if b = true then 1 else 0) →
      c ∈ l → b = true := by
    intro b l hl hmem
    cases b with
    | true => rfl
    | false =>
      have : l = [] := List.length_eq_zero.mp (by simpa using hl)
      rw [this] at hmem
      exact absurd hmem (List.not_mem_nil c)
  rcases hc2 with (((h | h) | h) | h) | h
  · exact Or.inl ⟨nonempty_flag _ _ n1 h, m1 c h⟩
  · exact Or.inr (Or.inl ⟨nonempty_flag _ _ n2 h, m2 c h⟩)
  · exact Or.inr (Or.inr (Or.inl ⟨nonempty_flag _ _ n3 h, m3 c h⟩))
  · exact Or.inr (Or.inr (Or.inr (Or.inl ⟨nonempty_flag _ _ n4 h, symSet_subset cfg c (m4 c h)⟩)))
  · exact buildPool_allowed cfg c (hm c h)

/-- An allowed character belongs to no class that is unchecked, except that
lowercase letters stand in when nothing is checked. -/
theorem allowed_not_unselected (cfg : Config) (c : Char) (h : Allowed cfg c) :
    (cfg.includeLower = false → anySelected cfg = true → c ∉ lowercase)
    ∧ (cfg.includeUpper = false → c ∉ uppercase)
    ∧ (cfg.includeNumbers = false → c ∉ numbers)
    ∧ (cfg.includeSymbols = false → c ∉ symbols) := by
  rcases h with ⟨hf, hm⟩ | ⟨hf, hm⟩ | ⟨hf, hm⟩ | ⟨hf, hm⟩ | ⟨hf, hm⟩
  · have d := lowercase_disjoint c hm
    exact ⟨fun h0 => absurd hf (by simp [h0]), fun _ => d.1, fun _ => d.2.1, fun _ => d.2.2⟩
  · have d := uppercase_disjoint c hm
    exact ⟨fun _ _ => d.1, fun h0 => absurd hf (by simp [h0]), fun _ => d.2.1, fun _ => d.2.2⟩
  · have d := numbers_disjoint c hm
    exact ⟨fun _ _ => d.1, fun _ => d.2.1, fun h0 => absurd hf (by simp [h0]), fun _ => d.2.2⟩
  · have d := symbols_disjoint c hm
    exact ⟨fun _ _ => d.1, fun _ => d.2.1, fun _ => d.2.2, fun h0 => absurd hf (by simp [h0])⟩
  · have d := lowercase_disjoint c hm
    exact ⟨fun _ h1 => absurd h1 (by simp [hf]), fun _ => d.1, fun _ => d.2.1, fun _ => d.2.2⟩

/-! ### The shuffle, step by step -/

theorem swapIndices_length (arr : List (Option Char)) (i : Nat) (j : Option Nat) :
    (swapIndices arr i j).length = arr.length := by
  cases j <;> simp [swapIndices]

theorem foldl_swapIndices_length (steps : List (Nat × Option Nat)) :
    ∀ arr : List (Option Char),
      (steps.foldl (fun a s => swapIndices a s.1 s.2) arr).length = arr.length := by
  induction steps with
  | nil => intro arr; rfl
  | cons s t ih =>
    intro arr
    rw [List.foldl_cons, ih, swapIndices_length]

theorem getD_none_eq (arr : List (Option Char)) (i : Nat) (hi : i < arr.length) :
    some (arr.getD i none) = arr[i]? := by
  simp [List.getD_eq_getElem?_getD, List.getElem?_eq_getElem hi]

theorem swapIndices_exchanges (arr : List (Option Char)) (i j : Nat) (hi : i < arr.length)
    (hj : j ≤ i) :
    (swapIndices arr i (some j))[i]? = arr[j]?
    ∧ (swapIndices arr i (some j))[j]? = arr[i]?
    ∧ ∀ k, k ≠ i → k ≠ j → (swapIndices arr i (some j))[k]? = arr[k]? := by
  have hjl : j < arr.length := Nat.lt_of_le_of_lt hj hi
  have ei := getD_none_eq arr i hi
  have ej := getD_none_eq arr j hjl
  simp only [swapIndices]
  refine ⟨?_, ?_, ?_⟩
  · by_cases hij : j = i
    · subst hij
      rw [List.getElem?_set, if_pos rfl, if_pos (by simpa using hjl), ei]
    · rw [List.getElem?_set, if_neg hij, List.getElem?_set, if_pos rfl, if_pos hi, ej]
  · rw [List.getElem?_set, if_pos rfl, if_pos (by simpa using hjl), ei]
  · intro k hki hkj
    rw [List.getElem?_set, if_neg (Ne.symm hkj), List.getElem?_set, if_neg (Ne.symm hki)]

theorem shuffleLoop_eq_foldl :
    ∀ (i : Nat) (arr : List (Option Char)) (r : RandomSource),
      shuffleLoop i (arr, r)
        = ((shuffleSteps i r).foldl (fun a s => swapIndices a s.1 s.2) arr, r.drop i)
  | 0, arr, r => rfl
  | i + 1, arr, r => by
    have ih := shuffleLoop_eq_foldl i
      (swapIndices arr (i + 1) (getRandomInt (i + 1 + 1) r).1) r.next
    simp only [shuffleLoop, shuffleSteps, List.foldl_cons, getRandomInt_snd] at ih ⊢
    rw [ih]
    have e : r.next.drop i = r.drop (i + 1) := by
      funext m
      simp only [RandomSource.drop, RandomSource.next]
      congr 1
    rw [e]

theorem shuffleSteps_closed :
    ∀ (i : Nat) (r : RandomSource),
      shuffleSteps i r
        = (List.range i).map fun k => (i - k, some (r k % 2 ^ 32 % (i - k + 1)))
  | 0, _ => rfl
  | i + 1, r => by
    rw [shuffleSteps, getRandomInt_fst (Nat.succ_pos _), getRandomInt_snd,
      shuffleSteps_closed i r.next, List.range_succ_eq_map, List.map_cons, List.map_map]
    congr 1
    apply List.map_congr_left
    intro k _
    simp only [Function.comp, RandomSource.next, Nat.succ_eq_add_one, Nat.add_sub_add_right]

theorem shuffleSteps_eq_fisherYates (n : Nat) (r : RandomSource) :
    shuffleSteps (n - 1) r = (fisherYatesSteps n r).map fun s => (s.1, some s.2) := by
  rw [shuffleSteps_closed, fisherYatesSteps, List.map_map]
  rfl

/-! ### The distribution of getRandomInt -/

theorem getRandomInt_of_word {n w : Nat} (hn : 0 < n) (hw : w < 2 ^ 32) (r : RandomSource)
    (h0 : r 0 = w) : (getRandomInt n r).1 = some (w % n) := by
  rw [getRandomInt_fst hn, h0, Nat.mod_eq_of_lt hw]

theorem wordsMappedTo_eq {n v : Nat} (hn : 0 < n) (hv : v < n) :
    wordsMappedTo n v = 2 ^ 32 / n + if v < 2 ^ 32 % n then 1 else 0 := by
  have h : Nat.count (fun w => w ≡ v [MOD n]) (2 ^ 32)
      = 2 ^ 32 / n + if v % n < 2 ^ 32 % n then 1 else 0 := Nat.count_modEq_card _ hn v
  rw [Nat.mod_eq_of_lt hv] at h
  rw [← h, wordsMappedTo, Nat.count_eq_card_filter_range, Nat.count_eq_card_filter_range]
  refine congrArg Finset.card (Finset.filter_congr ?_)
  intro w hw
  have hw2 : w < 2 ^ 32 := Finset.mem_range.mp hw
  rw [getRandomInt_of_word hn hw2 _ rfl, Option.some.injEq, Nat.ModEq, Nat.mod_eq_of_lt hv]

theorem wordsMappedTo_uniform_iff {n : Nat} (hn : 0 < n) :
    (∀ v1 v2, v1 < n → v2 < n → wordsMappedTo n v1 = wordsMappedTo n v2) ↔ n ∣ 2 ^ 32 := by
  constructor
  · intro h
    have h1 := h 0 (n - 1) hn (by omega)
    rw [wordsMappedTo_eq hn hn, wordsMappedTo_eq hn (by omega : n - 1 < n)] at h1
    have hm : 2 ^ 32 % n < n := Nat.mod_lt _ hn
    have hlast : ¬ (n - 1 < 2 ^ 32 % n) := by omega
    rw [if_neg hlast] at h1
    by_cases h0 : 0 < 2 ^ 32 % n
    · rw [if_pos h0] at h1
      omega
    · exact Nat.dvd_of_mod_eq_zero (by omega)
  · intro hd v1 v2 h1 h2
    have hm : 2 ^ 32 % n = 0 := Nat.mod_eq_zero_of_dvd hd
    rw [wordsMappedTo_eq hn h1, wordsMappedTo_eq hn h2, hm]
    simp

/-! ### Scoring -/

theorem inRange_iff (lo hi c : Char) : inRange lo hi c = true ↔ lo ≤ c ∧ c ≤ hi := by
  simp only [inRange, decide_eq_true_eq]
  exact Iff.rfl

theorem charsetSize_eq (p : List Char) :
    charsetSize p = (if hasLower p = true then 26 else 0) + (if hasUpper p = true then 26 else 0)
      + (if hasNum p = true then 10 else 0) + (if hasSym p = true then 32 else 0) := by
  simp only [charsetSize]
  cases hasLower p <;> cases hasUpper p <;> cases hasNum p <;> cases hasSym p <;> rfl

theorem some_class_present {p : List Char} (h : p ≠ []) :
    (hasLower p || hasUpper p || hasNum p || hasSym p) = true := by
  obtain ⟨c, t, rfl⟩ := List.exists_cons_of_ne_nil h
  simp only [hasLower, hasUpper, hasNum, hasSym, List.any_cons]
  rcases Bool.eq_false_or_eq_true (inRange 'a' 'z' c) with h1 | h1 <;>
  rcases Bool.eq_false_or_eq_true (inRange 'A' 'Z' c) with h2 | h2 <;>
  rcases Bool.eq_false_or_eq_true (inRange '0' '9' c) with h3 | h3 <;>
  simp [h1, h2, h3]

theorem charsetSize_pos {p : List Char} (h : p ≠ []) : 0 < charsetSize p := by
  have hs := some_class_present h
  rw [charsetSize_eq]
  simp only [Bool.or_eq_true] at hs
  rcases hs with ((h1 | h1) | h1) | h1 <;> simp [h1]

theorem two_rpow_div_pow {p q : ℕ} (hq : 0 < q) :
    ((2 : ℝ) ^ ((p : ℝ) / q)) ^ q = (2 : ℝ) ^ p := by
  have hq0 : (q : ℝ) ≠ 0 := by exact_mod_cast hq.ne'
  rw [← Real.rpow_natCast, ← Real.rpow_mul zero_le_two, div_mul_cancel₀ _ hq0,
    Real.rpow_natCast]

theorem logb_two_lt_of_pow {c p q : ℕ} (hc : 0 < c) (hq : 0 < q) (h : c ^ q < 2 ^ p) :
    Real.logb 2 c < (p : ℝ) / q := by
  have hcR : (0 : ℝ) < c := by exact_mod_cast hc
  rw [Real.logb_lt_iff_lt_rpow one_lt_two hcR]
  by_contra hcon
  push_neg at hcon
  have h1 : ((2 : ℝ) ^ ((p : ℝ) / q)) ^ q ≤ (c : ℝ) ^ q :=
    pow_le_pow_left₀ (Real.rpow_nonneg zero_le_two _) hcon q
  rw [two_rpow_div_pow hq] at h1
  have h4 : ((c ^ q : ℕ) : ℝ) < ((2 ^ p : ℕ) : ℝ) := by exact_mod_cast h
  push_cast at h4
  linarith

theorem lt_logb_two_of_pow {c p q : ℕ} (hc : 0 < c) (hq : 0 < q) (h : 2 ^ p < c ^ q) :
    (p : ℝ) / q < Real.logb 2 c := by
  have hcR : (0 : ℝ) < c := by exact_mod_cast hc
  rw [Real.lt_logb_iff_rpow_lt one_lt_two hcR]
  by_contra hcon
  push_neg at hcon
  have h1 : (c : ℝ) ^ q ≤ ((2 : ℝ) ^ ((p : ℝ) / q)) ^ q :=
    pow_le_pow_left₀ hcR.le hcon q
  rw [two_rpow_div_pow hq] at h1
  have h4 : ((2 ^ p : ℕ) : ℝ) < ((c ^ q : ℕ) : ℝ) := by exact_mod_cast h
  push_cast at h4
  linarith

theorem estimateEntropyBits_of_ne_nil {p : List Char} (h : p ≠ []) :
    estimateEntropyBits p = Real.logb 2 (charsetSize p) * (jsLength p : ℝ) := by
  have hpos := charsetSize_pos h
  have he : p.isEmpty = false := by
    cases p with
    | nil => exact absurd rfl h
    | cons _ _ => rfl
  simp [estimateEntropyBits, rawBits, log2, he, Nat.pos_iff_ne_zero.mp hpos]

theorem charsetSize_eq_spec (p : List Char) : charsetSize p = specCharsetSize p := by
  have hl : hasLower p = true ↔ ∃ c ∈ p, 'a' ≤ c ∧ c ≤ 'z' := by
    simp only [hasLower, List.any_eq_true, inRange_iff]
  have hu : hasUpper p = true ↔ ∃ c ∈ p, 'A' ≤ c ∧ c ≤ 'Z' := by
    simp only [hasUpper, List.any_eq_true, inRange_iff]
  have hn : hasNum p = true ↔ ∃ c ∈ p, '0' ≤ c ∧ c ≤ '9' := by
    simp only [hasNum, List.any_eq_true, inRange_iff]
  have hs : hasSym p = true ↔
      ∃ c ∈ p, ¬ (('A' ≤ c ∧ c ≤ 'Z') ∨ ('a' ≤ c ∧ c ≤ 'z') ∨ ('0' ≤ c ∧ c ≤ '9')) := by
    simp only [hasSym, List.any_eq_true, Bool.not_eq_eq_eq_not, Bool.not_true,
      ← Bool.not_eq_true, Bool.or_eq_true, inRange_iff, or_assoc]
  rw [charsetSize_eq, specCharsetSize]
  simp only [hl, hu, hn, hs]

theorem troubadour_bits :
    estimateEntropyBits troubadour = Real.logb 2 94 * 12 := by
  have h : troubadour ≠ [] := by decide
  rw [estimateEntropyBits_of_ne_nil h]
  have h1 : charsetSize troubadour = 94 := by decide
  have h2 : jsLength troubadour = 12 := by decide
  rw [h1, h2]
  norm_num

theorem troubadour_bits_bounds :
    78.65 < estimateEntropyBits troubadour ∧ estimateEntropyBits troubadour < 78.66 := by
  rw [troubadour_bits]
  have hlo : ((1573 : ℕ) : ℝ) / (240 : ℕ) < Real.logb 2 (94 : ℕ) :=
    lt_logb_two_of_pow (by norm_num) (by norm_num) (by norm_num)
  have hhi : Real.logb 2 (94 : ℕ) < ((1311 : ℕ) : ℝ) / (200 : ℕ) :=
    logb_two_lt_of_pow (by norm_num) (by norm_num) (by norm_num)
  push_cast at hlo hhi
  constructor
  · linarith
  · linarith

theorem charsetSize_ge_ten {p : List Char} (h : p ≠ []) : 10 ≤ charsetSize p := by
  have hs := some_class_present h
  rw [charsetSize_eq]
  simp only [Bool.or_eq_true] at hs
  rcases hs with ((h1 | h1) | h1) | h1 <;> rw [if_pos h1] <;> omega

theorem jsLength_pos {p : List Char} (h : p ≠ []) : 0 < jsLength p := by
  obtain ⟨c, t, rfl⟩ := List.exists_cons_of_ne_nil h
  have e : jsLength (c :: t) = (if c.toNat < 65536 then 1 else 2) + jsLength t := by
    simp [jsLength]
  rw [e]
  split_ifs <;> omega

theorem rawBits_of_ne_nil {p : List Char} (h : p ≠ []) :
    rawBits p = some (Real.logb 2 (charsetSize p) * (jsLength p : ℝ)) := by
  have hpos := charsetSize_pos h
  simp [rawBits, log2, Nat.pos_iff_ne_zero.mp hpos]

theorem estimateEntropyBits_lower_bound {p : List Char} (h : p ≠ []) :
    Real.logb 2 10 * (jsLength p : ℝ) ≤ estimateEntropyBits p
    ∧ 0 < estimateEntropyBits p := by
  rw [estimateEntropyBits_of_ne_nil h]
  have h10 : (10 : ℝ) ≤ (charsetSize p : ℝ) := by exact_mod_cast charsetSize_ge_ten h
  have hlog : Real.logb 2 10 ≤ Real.logb 2 (charsetSize p) :=
    Real.logb_le_logb_of_le one_lt_two (by norm_num) h10
  have hl0 : 0 < Real.logb 2 10 := Real.logb_pos one_lt_two (by norm_num)
  have hj : (0 : ℝ) < (jsLength p : ℝ) := by exact_mod_cast jsLength_pos h
  constructor
  · exact mul_le_mul_of_nonneg_right hlog hj.le
  · exact mul_pos (lt_of_lt_of_le hl0 hlog) hj

/-! ## Generation: length and class coverage -/

/-- C1: for every configuration with at least one class checked and an integer
length not below the number of checked classes, and every stream of random
words, the generated password has exactly `length` characters (as a JavaScript
string and as a sequence of code points) and contains a character of the
alphabet of each checked class. -/
theorem generatePassword_exact_length_and_coverage (cfg : Config) (r : RandomSource)
    (_hsel : anySelected cfg = true) (hlen : (selectedCount cfg : Int) ≤ cfg.length) :
    (jsLength (generatePassword cfg r).1 : Int) = cfg.length
    ∧ ((generatePassword cfg r).1.length : Int) = cfg.length
    ∧ (cfg.includeLower = true → ∃ c ∈ (generatePassword cfg r).1, c ∈ lowercase)
    ∧ (cfg.includeUpper = true → ∃ c ∈ (generatePassword cfg r).1, c ∈ uppercase)
    ∧ (cfg.includeNumbers = true → ∃ c ∈ (generatePassword cfg r).1, c ∈ numbers)
    ∧ (cfg.includeSymbols = true → ∃ c ∈ (generatePassword cfg r).1, c ∈ symbols) := by
  refine ⟨?_, ?_, generatePassword_covers cfg r⟩
  · rw [generatePassword_jsLength]; exact max_eq_right hlen
  · rw [generatePassword_length]; exact max_eq_right hlen

theorem generatePassword_exact_length_and_coverage_witness :
    anySelected exampleConfig = true ∧ (selectedCount exampleConfig : Int) ≤ exampleConfig.length
    ∧ (jsLength (generatePassword exampleConfig exampleSource).1 : Int) = 12
    ∧ (∃ c ∈ (generatePassword exampleConfig exampleSource).1, c ∈ lowercase)
    ∧ (∃ c ∈ (generatePassword exampleConfig exampleSource).1, c ∈ uppercase)
    ∧ (∃ c ∈ (generatePassword exampleConfig exampleSource).1, c ∈ numbers) :=
  have h := generatePassword_exact_length_and_coverage exampleConfig exampleSource
    (by decide) (by decide)
  ⟨by decide, by decide, h.1, h.2.2.1 rfl, h.2.2.2.1 rfl, h.2.2.2.2.1 rfl⟩

/-! ## Generation: ambiguous characters -/

/-- C2: with ambiguous characters excluded, the example configuration and a
source that always delivers 11 give the password "mmmmmmmm1Llm": the required
lowercase sample 'l' and the required digit '1' are drawn from the unfiltered
alphabets and both belong to `ambiguousSet`. -/
theorem generatePassword_ambiguous_required_sample :
    exampleConfig.excludeAmbiguous = true
    ∧ (generatePassword exampleConfig elevenSource).1 = "mmmmmmmm1Llm".toList
    ∧ 'l' ∈ (generatePassword exampleConfig elevenSource).1 ∧ 'l' ∈ ambiguousSet
    ∧ '1' ∈ (generatePassword exampleConfig elevenSource).1 ∧ '1' ∈ ambiguousSet := by
  decide

/-! ## Generation: no class checked -/

/-- C3, as stated, fails: with no class checked and length 0 the password is
empty while checking lowercase gives one character; and with ambiguous
characters excluded the unchecked configuration draws from the unfiltered
lowercase alphabet ("oo") while checking lowercase draws from the filtered
pool ("qo"). -/
theorem generatePassword_no_class_differs_from_lower :
    (generatePassword noClassZero fourteenSource).1 = []
    ∧ (generatePassword { noClassZero with includeLower := true } fourteenSource).1 = ['o']
    ∧ (generatePassword noClassExclude fourteenSource).1 = ['o', 'o']
    ∧ (generatePassword { noClassExclude with includeLower := true } fourteenSource).1
        = ['q', 'o']
    ∧ ¬ ((generatePassword noClassZero fourteenSource).1
        = (generatePassword { noClassZero with includeLower := true } fourteenSource).1)
    ∧ ¬ ((generatePassword noClassExclude fourteenSource).1
        = (generatePassword { noClassExclude with includeLower := true } fourteenSource).1) := by
  decide

/-- C3, amended: for every configuration with no class checked, ambiguous
characters not excluded and length at least 1, and every stream of random
words, the result (password and source left over) is the one of the
configuration that differs only in having lowercase checked. -/
theorem generatePassword_no_class_eq_lower (cfg : Config) (r : RandomSource)
    (hnone : anySelected cfg = false) (hex : cfg.excludeAmbiguous = false)
    (hlen : 1 ≤ cfg.length) :
    generatePassword cfg r = generatePassword { cfg with includeLower := true } r := by
  rcases cfg with ⟨len, a, b, c, d, e⟩
  simp only [anySelected, Bool.or_eq_false_iff] at hnone
  obtain ⟨⟨⟨ha, hb⟩, hc⟩, hd⟩ := hnone
  simp only at ha hb hc hd hex hlen
  subst ha hb hc hd hex
  obtain ⟨c, hc, hpick⟩ := charAt_getRandomInt lowercase_isBmp (by decide) r
  have hp1 : buildPool ⟨len, false, false, false, false, false⟩ = lowercase := rfl
  have hp2 : buildPool ⟨len, true, false, false, false, false⟩ = lowercase := rfl
  have hreq1 : requiredSamples ⟨len, false, false, false, false, false⟩ r = ([], r) := rfl
  have hreq2 : requiredSamples ⟨len, true, false, false, false, false⟩ r
      = ([some c], r.next) := by
    simp [requiredSamples, pushSample, hpick, getRandomInt_snd]
  have hj0 : jsLength (joinArr []) = 0 := rfl
  have hj1 : jsLength (joinArr [some c]) = 1 :=
    @jsLength_eq_length [c] (fun x hx => by
      rw [List.mem_singleton.mp hx]; exact lowercase_isBmp c hc)
  have hn : (len - ((0 : Nat) : Int)).toNat = (len - ((1 : Nat) : Int)).toNat + 1 := by omega
  have hstep : fillLoop lowercase ((len - ((1 : Nat) : Int)).toNat + 1) (joinArr [], r)
      = fillLoop lowercase (len - ((1 : Nat) : Int)).toNat (joinArr [some c], r.next) := by
    simp only [fillLoop, hpick, getRandomInt_snd]
    rfl
  simp only [generatePassword, hreq1, hreq2, hp1, hp2, hj0, hj1, hn, hstep]

theorem generatePassword_no_class_eq_lower_witness :
    anySelected noClassThree = false ∧ noClassThree.excludeAmbiguous = false
    ∧ 1 ≤ noClassThree.length
    ∧ generatePassword noClassThree exampleSource
        = generatePassword { noClassThree with includeLower := true } exampleSource :=
  ⟨by decide, by decide, by decide,
    generatePassword_no_class_eq_lower noClassThree exampleSource (by decide) (by decide)
      (by decide)⟩

/-! ## The shuffle -/

/-- C4: for every input string and every stream of random words, the output of
`shuffleString` is a permutation of the input: the same multiset of characters
and the same length (in code points and in UTF-16 code units). -/
theorem shuffleString_is_permutation (str : List Char) (r : RandomSource) :
    (shuffleString str r).1.Perm str
    ∧ Multiset.ofList (shuffleString str r).1 = Multiset.ofList str
    ∧ (shuffleString str r).1.length = str.length
    ∧ jsLength (shuffleString str r).1 = jsLength str :=
  have h := shuffleString_perm str r
  ⟨h, Multiset.coe_eq_coe.mpr h, h.length_eq, jsLength_perm h⟩

/-! ## Generation: the length in general -/

/-- C5: for every configuration (the length any integer, zero and negative
included) and every stream of random words, the length of the password is the
larger of the number of required samples and the configured length; the number
of required samples is the number of checked classes. -/
theorem generatePassword_length_eq_max (cfg : Config) (r : RandomSource) :
    (jsLength (generatePassword cfg r).1 : Int)
        = max ((requiredSamples cfg r).1.length : Int) cfg.length
    ∧ ((generatePassword cfg r).1.length : Int)
        = max ((requiredSamples cfg r).1.length : Int) cfg.length
    ∧ (requiredSamples cfg r).1.length = selectedCount cfg := by
  rw [requiredSamples_length]
  exact ⟨generatePassword_jsLength cfg r, generatePassword_length cfg r, rfl⟩

/-! ## The pool -/

/-- C6: `buildPool` never returns the empty string; with no class checked it
returns the whole lowercase alphabet, whether or not ambiguous characters are
excluded; with some class checked the pool is already non-empty before the
fallback, which therefore leaves it unchanged. -/
theorem buildPool_nonempty_and_fallback (cfg : Config) :
    buildPool cfg ≠ []
    ∧ (anySelected cfg = false → buildPool cfg = "abcdefghijklmnopqrstuvwxyz".toList)
    ∧ (anySelected cfg = true →
        poolBeforeFallback cfg ≠ [] ∧ buildPool cfg = poolBeforeFallback cfg) := by
  have h : ∀ a b c d e : Bool,
      buildPool ⟨0, a, b, c, d, e⟩ ≠ []
      ∧ (anySelected ⟨0, a, b, c, d, e⟩ = false →
          buildPool ⟨0, a, b, c, d, e⟩ = "abcdefghijklmnopqrstuvwxyz".toList)
      ∧ (anySelected ⟨0, a, b, c, d, e⟩ = true →
          poolBeforeFallback ⟨0, a, b, c, d, e⟩ ≠ []
          ∧ buildPool ⟨0, a, b, c, d, e⟩ = poolBeforeFallback ⟨0, a, b, c, d, e⟩) := by
    decide
  exact h cfg.includeLower cfg.includeUpper cfg.includeNumbers cfg.includeSymbols
    cfg.excludeAmbiguous

/-! ## The alphabets -/

/-- C7, as stated, fails: the symbol alphabet has 26 characters, not 32. -/
theorem symbols_length_ne_32 :
    jsLength symbols = 26 ∧ symbols.length = 26 ∧ ¬ (jsLength symbols = 32) := by
  decide

/-- C7, amended: the four class alphabets are the fixed strings of the script,
of 26, 26, 10 and 26 characters respectively. -/
theorem alphabet_lengths :
    lowercase = "abcdefghijklmnopqrstuvwxyz".toList ∧ jsLength lowercase = 26
    ∧ uppercase = "ABCDEFGHIJKLMNOPQRSTUVWXYZ".toList ∧ jsLength uppercase = 26
    ∧ numbers = "0123456789".toList ∧ jsLength numbers = 10
    ∧ symbols = "!@#$%^&*()_+-=[]\x7b\x7d|;:,.<>?".toList ∧ jsLength symbols = 26 := by
  decide

/-! ## Strength scoring -/

/-- C8: for every password the charset size computed by the script is the sum
of 26, 26, 10 and 32 over the classes present (lowercase letter, uppercase
letter, digit, any other character); for a non-empty password the estimate is
log2(charsetSize) times the length, and for the empty password it is 0. -/
theorem estimateEntropyBits_formula (p : List Char) :
    charsetSize p = specCharsetSize p
    ∧ (p ≠ [] → estimateEntropyBits p = Real.logb 2 (specCharsetSize p) * (jsLength p : ℝ))
    ∧ estimateEntropyBits [] = 0 := by
  refine ⟨charsetSize_eq_spec p, fun h => ?_, ?_⟩
  · rw [← charsetSize_eq_spec]; exact estimateEntropyBits_of_ne_nil h
  · simp [estimateEntropyBits]

theorem estimateEntropyBits_formula_witness :
    specCharsetSize "abcdefgh".toList = 26
    ∧ estimateEntropyBits "abcdefgh".toList = Real.logb 2 26 * 8 := by
  have h := estimateEntropyBits_formula "abcdefgh".toList
  have hc : specCharsetSize "abcdefgh".toList = 26 := by rw [← h.1]; decide
  have hj : jsLength "abcdefgh".toList = 8 := by decide
  refine ⟨hc, ?_⟩
  rw [h.2.1 (by decide), hc, hj]
  norm_num

/-- C9: the pair chosen by `updateStrength` is determined by the value of
`estimateEntropyBits` alone; for every value of bits the label is "Weak"
exactly when bits < 60, "Fair" exactly when 60 <= bits < 80 and "Strong"
exactly when bits >= 80, exactly one of the three holds, and the level is the
one that goes with the label. -/
theorem updateStrength_thresholds (pw : List Char) (bits : ℝ) :
    updateStrength pw = strengthOfBits (estimateEntropyBits pw)
    ∧ (∀ pw2, estimateEntropyBits pw2 = estimateEntropyBits pw →
        updateStrength pw2 = updateStrength pw)
    ∧ ((strengthOfBits bits).2 = "Weak" ↔ bits < 60)
    ∧ ((strengthOfBits bits).2 = "Fair" ↔ 60 ≤ bits ∧ bits < 80)
    ∧ ((strengthOfBits bits).2 = "Strong" ↔ 80 ≤ bits)
    ∧ (strengthOfBits bits = ("weak", "Weak") ∨ strengthOfBits bits = ("fair", "Fair")
        ∨ strengthOfBits bits = ("strong", "Strong"))
    ∧ ((bits < 60 ∧ ¬ (60 ≤ bits ∧ bits < 80) ∧ ¬ 80 ≤ bits)
        ∨ (¬ bits < 60 ∧ (60 ≤ bits ∧ bits < 80) ∧ ¬ 80 ≤ bits)
        ∨ (¬ bits < 60 ∧ ¬ (60 ≤ bits ∧ bits < 80) ∧ 80 ≤ bits)) := by
  refine ⟨rfl, fun pw2 h => by simp only [updateStrength, h], ?_⟩
  have hWF : ("Weak" : String) ≠ "Fair" := by decide
  have hWS : ("Weak" : String) ≠ "Strong" := by decide
  have hFS : ("Fair" : String) ≠ "Strong" := by decide
  by_cases h1 : 60 ≤ bits ∧ bits < 80
  · have e : strengthOfBits bits = ("fair", "Fair") := by simp only [strengthOfBits, if_pos h1]
    have h60 : ¬ bits < 60 := not_lt.mpr h1.1
    have h80 : ¬ 80 ≤ bits := not_le.mpr h1.2
    rw [e]
    simp [h1, h60, h80, hWF.symm, hFS]
  · by_cases h2 : 80 ≤ bits
    · have e : strengthOfBits bits = ("strong", "Strong") := by
        simp only [strengthOfBits, if_neg h1, if_pos h2]
      have h60 : ¬ bits < 60 := by
        intro h; linarith
      rw [e]
      simp [h1, h2, h60, hWS.symm, hFS.symm]
    · have e : strengthOfBits bits = ("weak", "Weak") := by
        simp only [strengthOfBits, if_neg h1, if_neg h2]
      have h60 : bits < 60 := by
        by_contra h
        exact h1 ⟨not_lt.mp h, not_le.mp h2⟩
      rw [e]
      simp [h1, h2, h60, hWF, hWS]

/-- C10, as stated, fails: the estimate for "Tr0ub4dour&3" is below 78.66, so
it is not 78.8 to one decimal place (it is not within 0.05 of 78.8). -/
theorem troubadour_bits_not_78_8 :
    ¬ (|estimateEntropyBits troubadour - 78.8| ≤ 0.05) := by
  have h := troubadour_bits_bounds.2
  intro hc
  have h2 := (abs_le.mp hc).1
  linarith

/-- C10, amended: scoring "Tr0ub4dour&3" finds all four classes, the charset
size is 26+26+10+32 = 94, bits = log2(94)*12, which lies between 78.65 and
78.66, and the pair chosen is ("fair", "Fair"). -/
theorem troubadour_score :
    hasLower troubadour = true ∧ hasUpper troubadour = true ∧ hasNum troubadour = true
    ∧ hasSym troubadour = true ∧ charsetSize troubadour = 26 + 26 + 10 + 32
    ∧ estimateEntropyBits troubadour = Real.logb 2 94 * 12
    ∧ 78.65 < estimateEntropyBits troubadour ∧ estimateEntropyBits troubadour < 78.66
    ∧ updateStrength troubadour = ("fair", "Fair") := by
  refine ⟨by decide, by decide, by decide, by decide, by decide, troubadour_bits,
    troubadour_bits_bounds.1, troubadour_bits_bounds.2, ?_⟩
  have h := troubadour_bits_bounds
  have h1 : 60 ≤ estimateEntropyBits troubadour ∧ estimateEntropyBits troubadour < 80 :=
    ⟨by linarith [h.1], by linarith [h.2]⟩
  simp only [updateStrength, strengthOfBits, if_pos h1]

/-- C11: scoring the empty password gives 0 bits and the pair
("weak", "Weak"). -/
theorem empty_password_score :
    estimateEntropyBits [] = 0 ∧ updateStrength [] = ("weak", "Weak")
    ∧ (updateStrength []).1 = "weak" ∧ (updateStrength []).2 = "Weak" := by
  have h0 : estimateEntropyBits [] = 0 := by simp [estimateEntropyBits]
  have h1 : ¬ ((60 : ℝ) ≤ 0 ∧ (0 : ℝ) < 80) := by norm_num
  have h2 : ¬ ((80 : ℝ) ≤ 0) := by norm_num
  have e : updateStrength [] = ("weak", "Weak") := by
    simp only [updateStrength, h0, strengthOfBits, if_neg h1, if_neg h2]
  exact ⟨h0, e, by rw [e], by rw [e]⟩

/-- C12: the score depends on the password string only: whenever two runs of
the generator, under any two configurations and any two streams of random
words, produce the same password, the bits and the pair (level, label) shown
for them are the same. -/
theorem score_depends_on_password_only (cfg1 cfg2 : Config) (r1 r2 : RandomSource)
    (h : (generatePassword cfg1 r1).1 = (generatePassword cfg2 r2).1) :
    estimateEntropyBits (generatePassword cfg1 r1).1
        = estimateEntropyBits (generatePassword cfg2 r2).1
    ∧ updateStrength (generatePassword cfg1 r1).1 = updateStrength (generatePassword cfg2 r2).1
    ∧ (generateAndScore cfg1 r1).2 = (generateAndScore cfg2 r2).2 := by
  simp only [generateAndScore, h, and_self]

theorem score_depends_on_password_only_witness :
    noClassThree ≠ { noClassThree with includeLower := true }
    ∧ (generatePassword noClassThree exampleSource).1
        = (generatePassword { noClassThree with includeLower := true } shiftedSource).1
    ∧ (generateAndScore noClassThree exampleSource).2
        = (generateAndScore { noClassThree with includeLower := true } shiftedSource).2 :=
  have h : (generatePassword noClassThree exampleSource).1
      = (generatePassword { noClassThree with includeLower := true } shiftedSource).1 := by
    decide
  ⟨by decide, h,
    (score_depends_on_password_only noClassThree { noClassThree with includeLower := true }
      exampleSource shiftedSource h).2.2⟩

/-! ## Generation: negative lengths -/

/-- C13, as stated, fails: with length -1 and lowercase checked the call ends
normally and returns the one-character password "o"; no error is raised. -/
theorem generatePassword_negative_length_returns :
    negativeLengthConfig.length < 0
    ∧ generatePasswordOutcome negativeLengthConfig fourteenSource = Except.ok ['o']
    ∧ ¬ (generatePasswordOutcome negativeLengthConfig fourteenSource
        = Except.error "InvalidConfiguration") := by
  refine ⟨by decide, ?_, ?_⟩
  · have h : (generatePassword negativeLengthConfig fourteenSource).1 = ['o'] := by decide
    simp only [generatePasswordOutcome, h]
  · intro h
    simp [generatePasswordOutcome] at h

/-- C13, amended: for every configuration with a negative length the call
raises no error and returns a password that is a rearrangement of the
required samples, one character per checked class. -/
theorem generatePassword_negative_length (cfg : Config) (r : RandomSource)
    (hneg : cfg.length < 0) :
    generatePasswordOutcome cfg r = Except.ok (generatePassword cfg r).1
    ∧ (generatePassword cfg r).1.Perm (joinArr (requiredSamples cfg r).1)
    ∧ jsLength (generatePassword cfg r).1 = selectedCount cfg := by
  refine ⟨rfl, ?_, ?_⟩
  · rw [generatePassword_no_fill cfg r (by omega)]
    exact shuffleString_perm _ _
  · have h := generatePassword_jsLength cfg r
    have h2 : max (selectedCount cfg : Int) cfg.length = selectedCount cfg := by omega
    rw [h2] at h
    exact_mod_cast h

theorem generatePassword_negative_length_witness :
    negativeLengthConfig.length < 0
    ∧ generatePasswordOutcome negativeLengthConfig exampleSource
        = Except.ok (generatePassword negativeLengthConfig exampleSource).1
    ∧ jsLength (generatePassword negativeLengthConfig exampleSource).1 = 1 :=
  have h := generatePassword_negative_length negativeLengthConfig exampleSource (by decide)
  ⟨by decide, h.1, h.2.2⟩

/-! ## The pool: contents -/

/-- C14: with at least one class checked, `buildPool` returns the alphabets of
the checked classes concatenated in the order lowercase, uppercase, numbers,
symbols, with the characters of `ambiguousSet` removed in place when ambiguous
characters are excluded; the pool has no repeated character and, when ambiguous
characters are excluded, none of `ambiguousSet`. -/
theorem buildPool_contents (cfg : Config) (hsel : anySelected cfg = true) :
    buildPool cfg = specPool cfg
    ∧ (buildPool cfg).Sublist (specConcat cfg)
    ∧ (cfg.excludeAmbiguous = false → buildPool cfg = specConcat cfg)
    ∧ (buildPool cfg).Nodup
    ∧ (cfg.excludeAmbiguous = true → ∀ c ∈ buildPool cfg, c ∉ ambiguousSet) := by
  have h : ∀ a b c d e : Bool, anySelected ⟨0, a, b, c, d, e⟩ = true →
      buildPool ⟨0, a, b, c, d, e⟩ = specPool ⟨0, a, b, c, d, e⟩
      ∧ (e = false → buildPool ⟨0, a, b, c, d, e⟩ = specConcat ⟨0, a, b, c, d, e⟩)
      ∧ (buildPool ⟨0, a, b, c, d, e⟩).Nodup
      ∧ (e = true → ∀ x ∈ buildPool ⟨0, a, b, c, d, e⟩, x ∉ ambiguousSet) := by
    decide
  have h2 := h cfg.includeLower cfg.includeUpper cfg.includeNumbers cfg.includeSymbols
    cfg.excludeAmbiguous hsel
  have e1 : buildPool cfg = specPool cfg := h2.1
  refine ⟨e1, ?_, h2.2.1, h2.2.2.1, h2.2.2.2⟩
  rw [e1, specPool]
  split
  · exact List.filter_sublist _
  · exact List.Sublist.refl _

theorem buildPool_contents_witness :
    anySelected exampleConfig = true
    ∧ buildPool exampleConfig = "abcdefghijkmnpqrstuvwxyzACDEFGHJKLMNPQRTUVWXYZ234679".toList
    ∧ (buildPool exampleConfig).Nodup :=
  have h := buildPool_contents exampleConfig (by decide)
  ⟨by decide, h.1.trans (by decide), h.2.2.2.1⟩

/-! ## Generation: short lengths -/

/-- C15: when the length is at most the number of required samples (length 0
in particular) the fill loop makes no round, appends nothing and draws nothing:
the password is the shuffle of the required samples, a rearrangement of them,
and it is empty when no class is checked. -/
theorem generatePassword_short_length (cfg : Config) (r : RandomSource)
    (h : cfg.length ≤ ((requiredSamples cfg r).1.length : Int)) :
    (cfg.length - (jsLength (joinArr (requiredSamples cfg r).1) : Int)).toNat = 0
    ∧ fillLoop (buildPool cfg)
        (cfg.length - (jsLength (joinArr (requiredSamples cfg r).1) : Int)).toNat
        (joinArr (requiredSamples cfg r).1, (requiredSamples cfg r).2)
      = (joinArr (requiredSamples cfg r).1, (requiredSamples cfg r).2)
    ∧ generatePassword cfg r
      = shuffleString (joinArr (requiredSamples cfg r).1) (requiredSamples cfg r).2
    ∧ (generatePassword cfg r).1.Perm (joinArr (requiredSamples cfg r).1)
    ∧ (anySelected cfg = false → (generatePassword cfg r).1 = []) := by
  rw [requiredSamples_length] at h
  have h0 : (cfg.length - (jsLength (joinArr (requiredSamples cfg r).1) : Int)).toNat = 0 := by
    rw [requiredSamples_jsLength]; omega
  have hg := generatePassword_no_fill cfg r h
  refine ⟨h0, by rw [h0]; rfl, hg, by rw [hg]; exact shuffleString_perm _ _, fun hnone => ?_⟩
  have hlen := generatePassword_length cfg r
  have hc : selectedCount cfg = 0 := by
    simp only [anySelected, Bool.or_eq_false_iff] at hnone
    obtain ⟨⟨⟨ha, hb⟩, hc⟩, hd⟩ := hnone
    simp [selectedCount, ha, hb, hc, hd]
  rw [hc] at h hlen
  have hz : (generatePassword cfg r).1.length = 0 := by
    have : max ((0 : Nat) : Int) cfg.length = 0 := by omega
    rw [this] at hlen
    exact_mod_cast hlen
  exact List.length_eq_zero.mp hz

theorem generatePassword_short_length_witness :
    fourClassShort.length ≤ ((requiredSamples fourClassShort exampleSource).1.length : Int)
    ∧ (requiredSamples fourClassShort exampleSource).1
        = [some 'h', some 'U', some '3', some ':']
    ∧ fillLoop (buildPool fourClassShort)
        (fourClassShort.length
          - (jsLength (joinArr (requiredSamples fourClassShort exampleSource).1) : Int)).toNat
        (joinArr (requiredSamples fourClassShort exampleSource).1,
          (requiredSamples fourClassShort exampleSource).2)
      = (joinArr (requiredSamples fourClassShort exampleSource).1,
          (requiredSamples fourClassShort exampleSource).2)
    ∧ (generatePassword fourClassShort exampleSource).1 = ['3', 'U', 'h', ':']
    ∧ (generatePassword fourClassShort exampleSource).1.Perm ['h', 'U', '3', ':'] :=
  have h := generatePassword_short_length fourClassShort exampleSource (by decide)
  have hreq : (requiredSamples fourClassShort exampleSource).1
      = [some 'h', some 'U', some '3', some ':'] := by decide
  have hjoin : joinArr (requiredSamples fourClassShort exampleSource).1
      = ['h', 'U', '3', ':'] := by decide
  ⟨by decide, hreq, h.2.1, by decide, hjoin ▸ h.2.2.2.1⟩

/-! ## The required symbol -/

/-- C18: no symbol belongs to `ambiguousSet`, so filtering the symbols leaves
them unchanged and `symSet` is the symbol alphabet whether or not ambiguous
characters are excluded; the guard `symSet.length` holds, and when symbols are
checked the array `required` ends with a symbol. -/
theorem symSet_eq_symbols (cfg : Config) (r : RandomSource) :
    (∀ c ∈ symbols, c ∉ ambiguousSet)
    ∧ (symbols.filter fun c => !ambiguousSet.contains c) = symbols
    ∧ symSet cfg = symbols
    ∧ (jsLength (symSet cfg) != 0) = true
    ∧ (cfg.includeSymbols = true →
        ∃ c ∈ symbols, ∃ rest, (requiredSamples cfg r).1 = rest ++ [some c]) := by
  have hs : ∀ e : Bool, symSet ⟨0, false, false, false, false, e⟩ = symbols := by decide
  refine ⟨by decide, by decide, by rw [symSet_congr]; exact hs _, symSet_guard cfg, fun h => ?_⟩
  obtain ⟨l1, l2, l3, l4, r2, e, -, -, -, -, -, -, n4, m4⟩ := requiredSamples_spec cfg r
  rw [if_pos h] at n4
  obtain ⟨c, hc⟩ := List.length_eq_one.mp n4
  refine ⟨c, symSet_subset cfg c (m4 c (by simp [hc])), (l1 ++ l2 ++ l3).map some, ?_⟩
  rw [e, hc]
  simp

/-! ## Generation: the characters of the password -/

/-- C20: every character of the password belongs to the alphabet of a checked
class, or is a lowercase letter when no class is checked; no character of an
unchecked class appears (lowercase aside when nothing is checked); and every
character pick is in bounds: no element of `required` is `undefined`,
indexing an alphabet, `symSet` or the pool at `getRandomInt` of its length
yields one of its characters, and each round of the fill loop appends exactly
one character of the pool. -/
theorem generatePassword_chars_allowed (cfg : Config) (r : RandomSource) :
    (∀ c ∈ (generatePassword cfg r).1, Allowed cfg c)
    ∧ (∀ c ∈ (generatePassword cfg r).1,
        (cfg.includeLower = false → anySelected cfg = true → c ∉ lowercase)
        ∧ (cfg.includeUpper = false → c ∉ uppercase)
        ∧ (cfg.includeNumbers = false → c ∉ numbers)
        ∧ (cfg.includeSymbols = false → c ∉ symbols))
    ∧ (∀ v ∈ (requiredSamples cfg r).1, v ≠ none)
    ∧ (∀ r2 : RandomSource,
        (∃ c ∈ lowercase, charAt lowercase (getRandomInt (jsLength lowercase) r2).1 = some c)
        ∧ (∃ c ∈ uppercase, charAt uppercase (getRandomInt (jsLength uppercase) r2).1 = some c)
        ∧ (∃ c ∈ numbers, charAt numbers (getRandomInt (jsLength numbers) r2).1 = some c)
        ∧ (∃ c ∈ symSet cfg,
            charAt (symSet cfg) (getRandomInt (jsLength (symSet cfg)) r2).1 = some c)
        ∧ (∃ c ∈ buildPool cfg,
            charAt (buildPool cfg) (getRandomInt (jsLength (buildPool cfg)) r2).1 = some c))
    ∧ (∀ (n : Nat) (res : List Char) (r2 : RandomSource),
        ∃ extra r3, fillLoop (buildPool cfg) n (res, r2) = (res ++ extra, r3)
          ∧ extra.length = n ∧ ∀ c ∈ extra, c ∈ buildPool cfg) := by
  refine ⟨generatePassword_allowed cfg r,
    fun c hc => allowed_not_unselected cfg c (generatePassword_allowed cfg r c hc), ?_,
    fun r2 => ⟨charAt_getRandomInt lowercase_isBmp (by decide) r2,
      charAt_getRandomInt uppercase_isBmp (by decide) r2,
      charAt_getRandomInt numbers_isBmp (by decide) r2,
      charAt_getRandomInt (symSet_isBmp cfg) (symSet_ne_nil cfg) r2,
      charAt_getRandomInt (buildPool_isBmp cfg) (buildPool_ne_nil cfg) r2⟩,
    fillLoop_spec (buildPool_isBmp cfg) (buildPool_ne_nil cfg)⟩
  obtain ⟨l1, l2, l3, l4, r2, e, -⟩ := requiredSamples_spec cfg r
  intro v hv
  rw [e] at hv
  obtain ⟨c, -, rfl⟩ := List.mem_map.mp hv
  exact Option.some_ne_none c

/-! ## The shuffle is a Fisher-Yates shuffle -/

/-- C16: on an input of n characters `shuffleString` makes one step for each i
from n-1 down to 1; step number k draws j = getRandomInt(i+1) from the k-th
random word, so that j <= i, and swaps positions i and j, both of them indices
of the array, whose length stays n: after the step position i holds the former
element of position j, position j the former element of position i, and every
other position is unchanged; it consumes exactly n-1 words (none when n = 0)
and returns an input of length 0 or 1 unchanged. -/
theorem shuffleString_fisher_yates (str : List Char) (r : RandomSource) :
    shuffleSteps (str.length - 1) r
      = (fisherYatesSteps str.length r).map (fun s => (s.1, some s.2))
    ∧ shuffleString str r
      = (joinArr ((shuffleSteps (str.length - 1) r).foldl
          (fun a s => swapIndices a s.1 s.2) (str.map some)), r.drop (str.length - 1))
    ∧ (fisherYatesSteps str.length r).length = str.length - 1
    ∧ (∀ k, k < str.length - 1 →
        (fisherYatesSteps str.length r)[k]?
          = some (str.length - 1 - k, r k % 2 ^ 32 % (str.length - 1 - k + 1))
        ∧ (getRandomInt (str.length - 1 - k + 1) (r.drop k)).1
          = some (r k % 2 ^ 32 % (str.length - 1 - k + 1)))
    ∧ (∀ s ∈ fisherYatesSteps str.length r, 1 ≤ s.1 ∧ s.1 < str.length ∧ s.2 ≤ s.1)
    ∧ (∀ steps : List (Nat × Option Nat),
        (steps.foldl (fun a s => swapIndices a s.1 s.2) (str.map some)).length = str.length)
    ∧ (shuffleString str r).2 = r.drop (str.length - 1)
    ∧ (str.length ≤ 1 → shuffleString str r = (str, r))
    ∧ (∀ (arr : List (Option Char)) (i j : Nat), i < arr.length → j ≤ i →
        (swapIndices arr i (some j))[i]? = arr[j]?
        ∧ (swapIndices arr i (some j))[j]? = arr[i]?
        ∧ ∀ k, k ≠ i → k ≠ j → (swapIndices arr i (some j))[k]? = arr[k]?) := by
  have hrun : shuffleString str r
      = (joinArr ((shuffleSteps (str.length - 1) r).foldl
          (fun a s => swapIndices a s.1 s.2) (str.map some)), r.drop (str.length - 1)) := by
    simp only [shuffleString, shuffleLoop_eq_foldl, List.length_map]
  refine ⟨shuffleSteps_eq_fisherYates _ r, hrun, by simp [fisherYatesSteps], ?_, ?_, ?_,
    by rw [hrun], ?_, swapIndices_exchanges⟩
  · intro k hk
    constructor
    · simp [fisherYatesSteps, List.getElem?_map, List.getElem?_range hk]
    · rw [getRandomInt_fst (Nat.succ_pos _)]
      simp [RandomSource.drop]
  · intro s hs
    simp only [fisherYatesSteps, List.mem_map, List.mem_range] at hs
    obtain ⟨k, hk, rfl⟩ := hs
    have hj : r k % 2 ^ 32 % (str.length - 1 - k + 1) < str.length - 1 - k + 1 :=
      Nat.mod_lt _ (Nat.succ_pos _)
    refine ⟨?_, ?_, ?_⟩
    · show 1 ≤ str.length - 1 - k
      omega
    · show str.length - 1 - k < str.length
      omega
    · show r k % 2 ^ 32 % (str.length - 1 - k + 1) ≤ str.length - 1 - k
      omega
  · intro steps
    rw [foldl_swapIndices_length, List.length_map]
  · intro hle
    have h0 : str.length - 1 = 0 := by omega
    rw [hrun, h0]
    simp only [shuffleSteps, List.foldl_nil, joinArr_map_some]
    rfl

theorem shuffleString_fisher_yates_witness :
    shuffleSteps 3 fourteenSource = [(3, some 2), (2, some 2), (1, some 0)]
    ∧ fisherYatesSteps 4 fourteenSource = [(3, 2), (2, 2), (1, 0)]
    ∧ swapIndices [some 'a', some 'b', some 'c', some 'd'] 3 (some 2)
        = [some 'a', some 'b', some 'd', some 'c']
    ∧ (shuffleString "abcd".toList fourteenSource).1 = "badc".toList :=
  have h := shuffleString_fisher_yates "abcd".toList fourteenSource
  ⟨h.1.trans (by decide), by decide, by decide, by decide⟩

/-! ## The distribution of getRandomInt -/

/-- C17: for 1 <= n <= 2^32 and a 32-bit word w, `getRandomInt(n)` is w mod n,
a number below n; over the 2^32 words the numbers of words mapped to two
results below n differ by at most one, and all results are hit equally often
exactly when n divides 2^32; for n = 6 they are not. -/
theorem getRandomInt_distribution (n : Nat) (h1 : 1 ≤ n) (_h2 : n ≤ 2 ^ 32) :
    (∀ r : RandomSource, r 0 < 2 ^ 32 →
        (getRandomInt n r).1 = some (r 0 % n) ∧ r 0 % n < n)
    ∧ (∀ v1 v2, v1 < n → v2 < n → wordsMappedTo n v1 ≤ wordsMappedTo n v2 + 1)
    ∧ ((∀ v1 v2, v1 < n → v2 < n → wordsMappedTo n v1 = wordsMappedTo n v2) ↔ n ∣ 2 ^ 32)
    ∧ (n = 6 → ¬ (∀ v1 v2, v1 < n → v2 < n → wordsMappedTo n v1 = wordsMappedTo n v2)) := by
  have hn : 0 < n := h1
  refine ⟨fun r hr => ⟨getRandomInt_of_word hn hr r rfl, Nat.mod_lt _ hn⟩, ?_,
    wordsMappedTo_uniform_iff hn, ?_⟩
  · intro v1 v2 hv1 hv2
    rw [wordsMappedTo_eq hn hv1, wordsMappedTo_eq hn hv2]
    split_ifs <;> omega
  · intro h6 hu
    have hd := (wordsMappedTo_uniform_iff hn).mp hu
    rw [h6] at hd
    exact absurd hd (by norm_num)

theorem getRandomInt_distribution_witness :
    1 ≤ 6 ∧ 6 ≤ 2 ^ 32
    ∧ (getRandomInt 6 elevenSource).1 = some 5
    ∧ ¬ (∀ v1 v2, v1 < 6 → v2 < 6 → wordsMappedTo 6 v1 = wordsMappedTo 6 v2) :=
  have h := getRandomInt_distribution 6 (by norm_num) (by norm_num)
  ⟨by norm_num, by norm_num, by decide, h.2.2.2 rfl⟩

/-! ## Strength scoring: non-empty passwords -/

/-- C19: every character is a lowercase letter, an uppercase letter, a digit or
not alphanumeric, so for a non-empty password one of the four class tests
succeeds, the charset size is at least 10, the product of line 106 is finite
(the fallback of line 107 is not taken) and at least log2(10) per character,
hence strictly positive; the estimate is 0 exactly for the empty password. -/
theorem estimateEntropyBits_zero_iff_empty (p : List Char) :
    (∀ c : Char, (inRange 'a' 'z' c || inRange 'A' 'Z' c || inRange '0' '9' c
        || !(inRange 'A' 'Z' c || inRange 'a' 'z' c || inRange '0' '9' c)) = true)
    ∧ (p ≠ [] →
        (hasLower p || hasUpper p || hasNum p || hasSym p) = true
        ∧ 10 ≤ charsetSize p
        ∧ rawBits p = some (Real.logb 2 (charsetSize p) * (jsLength p : ℝ))
        ∧ estimateEntropyBits p = Real.logb 2 (charsetSize p) * (jsLength p : ℝ)
        ∧ Real.logb 2 10 * (jsLength p : ℝ) ≤ estimateEntropyBits p
        ∧ 0 < estimateEntropyBits p)
    ∧ (estimateEntropyBits p = 0 ↔ p = []) := by
  refine ⟨fun c => ?_, fun h => ⟨some_class_present h, charsetSize_ge_ten h,
    rawBits_of_ne_nil h, estimateEntropyBits_of_ne_nil h,
    (estimateEntropyBits_lower_bound h).1, (estimateEntropyBits_lower_bound h).2⟩, ?_⟩
  · cases inRange 'a' 'z' c <;> cases inRange 'A' 'Z' c <;> cases inRange '0' '9' c <;> rfl
  · constructor
    · intro h0
      by_contra hne
      exact absurd h0 (ne_of_gt (estimateEntropyBits_lower_bound hne).2)
    · intro he
      rw [he]
      simp [estimateEntropyBits]

theorem estimateEntropyBits_zero_iff_empty_witness :
    troubadour ≠ [] ∧ 10 ≤ charsetSize troubadour ∧ 0 < estimateEntropyBits troubadour :=
  have h := (estimateEntropyBits_zero_iff_empty troubadour).2.1 (by decide)
  ⟨by decide, h.2.1, h.2.2.2.2.2⟩

end PasswordGenerator
